import Mathlib

/-!
Verification of the `maud` runtime support layer (`src/maud/src/lib.rs`).

The runtime is shallowly embedded as follows.

* A `std::fmt::Writer` is modelled as a state machine: a state type `σ`
  together with a step function `write_str : σ → String → σ × Bool`.
  The returned state is the writer after the call (a Rust `&mut` receiver
  may retain the effect of a partially successful call) and the `Bool` is
  the `fmt::Result` (`true` = `Ok(())`, `false` = `Err(fmt::Error)`;
  `fmt::Error` carries no payload).
* A `std::old_io::Writer` is modelled the same way except that a failing
  call reports an `IoError` value: `write_str : σ → String → σ × Option IoError`
  (`none` = success).
* Rust's `String` used as a `fmt::Writer` (appending, never failing) is
  the concrete writer `bufWriter` over state `String`.
* `Markup<F>` wraps one rendering callback; the callback takes any
  `fmt::Writer`, so it is modelled as a function polymorphic in the
  writer's state type.
* `unwrap()` on a `fmt::Result` is modelled by returning `Option`
  (`none` = the panic path).
-/

namespace Maud

/-- A `std::fmt::Writer`: given the current writer state and a string
fragment, return the updated state and whether the write succeeded. -/
structure Writer (σ : Type) where
  write_str : σ → String → σ × Bool

/-- A `std::old_io::IoErrorKind`; the runtime only ever constructs
`otherIoError`, the other constructors stand for the remaining kinds of
`std::old_io`. -/
inductive IoErrorKind where
  | otherIoError
  | endOfFile
  | permissionDenied
  deriving DecidableEq, Repr

/-- A `std::old_io::IoError`. -/
structure IoError where
  kind : IoErrorKind
  desc : String
  detail : Option String
  deriving DecidableEq, Repr

/-- A `std::old_io::Writer`, state-passing like `Writer` but failing with
an `IoError` (`none` = success). -/
structure IoWriter (σ : Type) where
  write_str : σ → String → σ × Option IoError

/-- A Rust `String` as a `fmt::Writer`: `write_str` appends and always
succeeds. -/
def bufWriter : Writer String :=
  ⟨fun st s => (st ++ s, true)⟩

namespace rt

/-- The `match c { ... }` arms of `rt::Escaper::write_str`: the string
handed to `self.inner` for one character `c` of the fragment.  The
default arm `write!(self.inner, "{}", c)` forwards the character itself. -/
def escaperTranslate (c : Char) : String :=
  match c with
  | '&' => "&amp;"
  | '<' => "&lt;"
  | '>' => "&gt;"
  | '"' => "&quot;"
  | '\'' => "&#39;"
  | _ => String.singleton c

/-- The `for c in s.chars()` loop of `rt::Escaper::write_str`: translate
each character and forward it to the inner writer; `try!` returns the
failure as soon as one forward fails, leaving the remaining characters
unprocessed. -/
def escaperLoop (W : Writer σ) : List Char → σ → σ × Bool
  | [], st => (st, true)
  | c :: cs, st =>
    let r := W.write_str st (escaperTranslate c)
    if r.2 then escaperLoop W cs r.1 else (r.1, false)

/-- `rt::Escaper`: a `fmt::Writer` adapter holding (a mutable borrow of)
one inner writer. -/
structure Escaper (σ : Type) where
  inner : Writer σ

/-- `rt::Escaper::write_str` (`impl fmt::Writer for Escaper`). -/
def Escaper.write_str (e : Escaper σ) (st : σ) (s : String) : σ × Bool :=
  escaperLoop e.inner s.data st

end rt

/-- Sequentially write a list of fragments to a writer, stopping at the
first failure.  This is not code of the repository; it is the observable
"fragment sequence forwarded to a writer", used to state theorems. -/
def writeAll (W : Writer σ) : σ → List String → σ × Bool
  | st, [] => (st, true)
  | st, f :: fs =>
    let r := W.write_str st f
    if r.2 then writeAll W r.1 fs else (r.1, false)

/-- `escape`: run the whole input through an `rt::Escaper` into a fresh
`String` buffer and return the buffer.  The source `unwrap()`s the
result; `escape_unwrap_ok` below proves that this write never fails, so
taking the final buffer state is faithful. -/
def escape (s : String) : String :=
  ((rt.Escaper.mk bufWriter).write_str "" s).1

/-- `Markup<F>`: wraps one rendering callback `F: Fn(&mut fmt::Writer) -> fmt::Result`.
The callback accepts any `fmt::Writer`, hence is polymorphic in the
writer state. -/
structure Markup where
  callback : (σ : Type) → Writer σ → σ → σ × Bool

/-- `Markup::render_fmt`: invoke the wrapped callback directly on the
given `fmt::Writer`. -/
def Markup.render_fmt (m : Markup) (W : Writer σ) (st : σ) : σ × Bool :=
  m.callback σ W st

/-- The `WriterWrapper` local to `Markup::render`: adapt an io writer
into a `fmt::Writer` by discarding the `IoError` payload
(`map_err(|_| fmt::Error)`). -/
def WriterWrapper (w : IoWriter σ) : Writer σ :=
  ⟨fun st s =>
    let r := w.write_str st s
    (r.1, r.2.isNone)⟩

/-- `Markup::render`: run `render_fmt` against the wrapped io writer and
map any formatting failure to
`IoError { kind: OtherIoError, desc: "formatting error", detail: None }`. -/
def Markup.render (m : Markup) (w : IoWriter σ) (st : σ) : σ × Option IoError :=
  let r := m.render_fmt (WriterWrapper w) st
  if r.2 then (r.1, none)
  else (r.1, some ⟨IoErrorKind.otherIoError, "formatting error", none⟩)

/-- `Markup::to_string` (`impl ToString for Markup`): render into a fresh
`String` buffer and return it; the source `unwrap()`s the result, so the
panic path is modelled as `none`. -/
def Markup.to_string (m : Markup) : Option String :=
  let r := m.render_fmt bufWriter ""
  if r.2 then some r.1 else none

/-- `rt::make_markup`: wrap a rendering callback in a `Markup`, with no
validation or transformation. -/
def rt.make_markup (f : (σ : Type) → Writer σ → σ → σ × Bool) : Markup :=
  Markup.mk f

/-- The characters an `rt::Escaper` writes for a whole character list:
each character's translation, concatenated in order. -/
def escChars (cs : List Char) : List Char :=
  cs.flatMap (fun c => (rt.escaperTranslate c).data)

theorem escaperLoop_eq_writeAll (W : Writer σ) (cs : List Char) (st : σ) :
    rt.escaperLoop W cs st = writeAll W st (cs.map rt.escaperTranslate) := by
  induction cs generalizing st with
  | nil => rfl
  | cons c cs ih =>
    simp only [rt.escaperLoop, List.map_cons, writeAll]
    split <;> simp [ih]

theorem writeAll_append (W : Writer σ) (st : σ) (l1 l2 : List String) :
    writeAll W st (l1 ++ l2) =
      if (writeAll W st l1).2 then writeAll W (writeAll W st l1).1 l2
      else writeAll W st l1 := by
  induction l1 generalizing st with
  | nil => simp [writeAll]
  | cons f fs ih =>
    simp only [List.cons_append, writeAll]
    split <;> simp [ih]

theorem append_mk (s : String) (l : List Char) :
    s ++ String.mk l = String.mk (s.data ++ l) := by
  cases s
  rfl

theorem escaperLoop_bufWriter (cs : List Char) (st : String) :
    rt.escaperLoop bufWriter cs st = (st ++ String.mk (escChars cs), true) := by
  induction cs generalizing st with
  | nil =>
    show (st, true) = (st ++ String.mk [], true)
    rw [append_mk, List.append_nil]
  | cons c cs ih =>
    simp only [rt.escaperLoop, bufWriter, if_true, escChars, List.flatMap_cons]
    rw [show (⟨fun st s => (st ++ s, true)⟩ : Writer String) = bufWriter from rfl, ih]
    simp [append_mk, List.append_assoc, escChars]

theorem escape_data (s : String) : escape s = String.mk (escChars s.data) := by
  show (rt.escaperLoop bufWriter s.data "").1 = _
  rw [escaperLoop_bufWriter]
  rfl

/-- The `unwrap()` in `escape` never panics: writing through an
`rt::Escaper` into a `String` buffer always succeeds. -/
theorem escape_unwrap_ok (s : String) :
    ((rt.Escaper.mk bufWriter).write_str "" s).2 = true := by
  show (rt.escaperLoop bufWriter s.data "").2 = true
  rw [escaperLoop_bufWriter]

theorem escaperTranslate_default (c : Char) (h1 : c ≠ '&') (h2 : c ≠ '<')
    (h3 : c ≠ '>') (h4 : c ≠ '"') (h5 : c ≠ '\'') :
    rt.escaperTranslate c = String.singleton c := by
  unfold rt.escaperTranslate
  split <;> simp_all

/-- C1: the text an `rt::Escaper` forwards to the wrapped writer is the
in-order concatenation of the per-character translations: `&` becomes
`&amp;`, `<` becomes `&lt;`, `>` becomes `&gt;`, `"` becomes `&quot;`,
`'` becomes `&#39;`, and every other character is forwarded unchanged
(as `write_str` of the sequential fragment list `writeAll`, this holds
for every wrapped writer, failing or not). -/
theorem escaper_write_str_spec (σ : Type) (W : Writer σ) (st : σ) (s : String) :
    (rt.Escaper.mk W).write_str st s = writeAll W st (s.data.map rt.escaperTranslate) ∧
    rt.escaperTranslate '&' = "&amp;" ∧
    rt.escaperTranslate '<' = "&lt;" ∧
    rt.escaperTranslate '>' = "&gt;" ∧
    rt.escaperTranslate '"' = "&quot;" ∧
    rt.escaperTranslate '\'' = "&#39;" ∧
    (∀ c : Char, c ≠ '&' → c ≠ '<' → c ≠ '>' → c ≠ '"' → c ≠ '\'' →
      rt.escaperTranslate c = String.singleton c) := by
  refine ⟨escaperLoop_eq_writeAll W s.data st, rfl, rfl, rfl, rfl, rfl, ?_⟩
  exact escaperTranslate_default

/-- C1 witness: the spec theorem applied at a concrete writer, state and
fragment. -/
theorem escaper_write_str_spec_witness :
    (rt.Escaper.mk bufWriter).write_str "x" "a&b" =
        writeAll bufWriter "x" (("a&b" : String).data.map rt.escaperTranslate) ∧
      rt.escaperTranslate 'a' = String.singleton 'a' := by
  have h := escaper_write_str_spec String bufWriter "x" "a&b"
  exact ⟨h.1, h.2.2.2.2.2.2 'a' (by decide) (by decide) (by decide) (by decide) (by decide)⟩

theorem escChars_id (cs : List Char)
    (h : ∀ c ∈ cs, c ≠ '&' ∧ c ≠ '<' ∧ c ≠ '>' ∧ c ≠ '"' ∧ c ≠ '\'') :
    escChars cs = cs := by
  induction cs with
  | nil => rfl
  | cons c cs ih =>
    have hc := h c (List.mem_cons_self c cs)
    have hrest : escChars cs = cs := ih fun x hx => h x (List.mem_cons_of_mem c hx)
    show (rt.escaperTranslate c).data ++ escChars cs = c :: cs
    rw [escaperTranslate_default c hc.1 hc.2.1 hc.2.2.1 hc.2.2.2.1 hc.2.2.2.2, hrest]
    rfl

/-- C5: on a string with none of the five HTML-special characters,
`escape` is the identity. -/
theorem escape_id_of_no_specials (s : String)
    (h : ∀ c ∈ s.data, c ≠ '&' ∧ c ≠ '<' ∧ c ≠ '>' ∧ c ≠ '"' ∧ c ≠ '\'') :
    escape s = s := by
  rw [escape_data, escChars_id s.data h]

/-- C5 witness: `escape` leaves `"abc"` unchanged. -/
theorem escape_id_of_no_specials_witness : escape "abc" = "abc" :=
  escape_id_of_no_specials "abc" (by decide)

/-- C8: the `rt::Escaper` keeps no state between calls: writing `s1 ++ s2`
through it behaves exactly as writing `s1` and then, if that succeeded,
writing `s2` from the writer state `s1` left behind. -/
theorem escaper_stateless (σ : Type) (W : Writer σ) (st : σ) (s1 s2 : String) :
    (rt.Escaper.mk W).write_str st (s1 ++ s2) =
      if ((rt.Escaper.mk W).write_str st s1).2 then
        (rt.Escaper.mk W).write_str ((rt.Escaper.mk W).write_str st s1).1 s2
      else (rt.Escaper.mk W).write_str st s1 := by
  simp only [rt.Escaper.write_str, escaperLoop_eq_writeAll]
  rw [show (s1 ++ s2).data = s1.data ++ s2.data by simp, List.map_append, writeAll_append]

/-- A test-harness writer: logs every fragment it accepts and fails
(without logging) on call number `k`, counting from 0. -/
def cutWriter (k : Nat) : Writer (Nat × List String) :=
  ⟨fun st s => if st.1 = k then ((st.1 + 1, st.2), false) else ((st.1 + 1, st.2 ++ [s]), true)⟩

/-- C4: if the wrapped writer fails on the translation of character `n`
(counting from 0, with the translations of the first `n` characters all
accepted), the `rt::Escaper` returns exactly that failing call's result:
the failure is propagated immediately and no translation of a later
character is forwarded. -/
theorem escaper_fail_fast (σ : Type) (W : Writer σ) (st : σ) (s : String) (n : Nat)
    (hn : n < s.data.length)
    (hok : (writeAll W st ((s.data.take n).map rt.escaperTranslate)).2 = true)
    (hfail : (W.write_str (writeAll W st ((s.data.take n).map rt.escaperTranslate)).1
        (rt.escaperTranslate (s.data.get ⟨n, hn⟩))).2 = false) :
    (rt.Escaper.mk W).write_str st s =
      W.write_str (writeAll W st ((s.data.take n).map rt.escaperTranslate)).1
        (rt.escaperTranslate (s.data.get ⟨n, hn⟩)) := by
  have hsplit : s.data = s.data.take n ++ s.data.get ⟨n, hn⟩ :: s.data.drop (n + 1) := by
    conv_lhs => rw [← List.take_append_drop n s.data, List.drop_eq_getElem_cons hn]
    rfl
  show rt.escaperLoop W s.data st = _
  rw [escaperLoop_eq_writeAll]
  conv_lhs => rw [hsplit]
  rw [List.map_append, writeAll_append, if_pos hok]
  simp only [List.map_cons, writeAll]
  rw [if_neg (by rw [hfail]; simp), ← hfail]

/-- C4 witness: the fail-fast theorem at a concrete logging writer that
rejects its second call; the escaper stops right there. -/
theorem escaper_fail_fast_witness :
    (rt.Escaper.mk (cutWriter 1)).write_str (0, []) "a&b" =
      (cutWriter 1).write_str
        (writeAll (cutWriter 1) (0, [])
          ((("a&b" : String).data.take 1).map rt.escaperTranslate)).1
        (rt.escaperTranslate (("a&b" : String).data.get ⟨1, by decide⟩)) :=
  escaper_fail_fast (Nat × List String) (cutWriter 1) (0, []) "a&b" 1
    (by decide) (by decide) (by decide)

/-- A rendering callback that always reports a formatting failure,
leaving the writer untouched. -/
def failMarkup : Markup :=
  rt.make_markup fun _ _ st => (st, false)

/-- A rendering callback that writes the single fragment `"hi"`. -/
def hiMarkup : Markup :=
  rt.make_markup fun _ W st => W.write_str st "hi"

/-- An io writer over a `String` buffer: appends and never fails. -/
def ioBufWriter : IoWriter String :=
  ⟨fun st s => (st ++ s, none)⟩

/-- C3: `Markup::render` succeeds exactly when the wrapped callback run
against the adapted writer succeeds, and on any failure — whether the
callback itself fails or the underlying io writer rejected a write —
it returns the one fixed error
`IoError { kind: OtherIoError, desc: "formatting error", detail: None }`. -/
theorem render_spec (m : Markup) (σ : Type) (w : IoWriter σ) (st : σ) :
    (∀ st', m.render w st = (st', none) ↔
      m.render_fmt (WriterWrapper w) st = (st', true)) ∧
    ((m.render_fmt (WriterWrapper w) st).2 = false →
      m.render w st =
        ((m.render_fmt (WriterWrapper w) st).1,
          some ⟨IoErrorKind.otherIoError, "formatting error", none⟩)) := by
  constructor
  · intro st'
    rcases hr : m.render_fmt (WriterWrapper w) st with ⟨st1, b⟩
    simp only [Markup.render, hr]
    cases b <;> simp
  · intro hfail
    rcases hr : m.render_fmt (WriterWrapper w) st with ⟨st1, b⟩
    rw [hr] at hfail
    simp only [Markup.render, hr, hfail]
    simp

/-- C3 witness: rendering an always-failing callback into a concrete io
buffer yields exactly the fixed "formatting error" failure. -/
theorem render_spec_witness :
    failMarkup.render ioBufWriter "" =
      ("", some ⟨IoErrorKind.otherIoError, "formatting error", none⟩) :=
  (render_spec failMarkup String ioBufWriter "").2 rfl

/-- C6: `rt::make_markup` stores the given callback unchanged and
`Markup::render_fmt` invokes it directly on the given writer, returning
its result unchanged. -/
theorem make_markup_render_fmt (f : (σ : Type) → Writer σ → σ → σ × Bool)
    (σ : Type) (W : Writer σ) (st : σ) :
    (rt.make_markup f).render_fmt W st = f σ W st ∧ (rt.make_markup f).callback = f :=
  ⟨rfl, rfl⟩

/-- C7: `Markup::to_string` returns exactly what the callback wrote into
a fresh buffer when the callback succeeds, and returns no value (the
`unwrap()` panic path) when the callback fails on the fresh buffer. -/
theorem to_string_spec (m : Markup) :
    (∀ buf, m.render_fmt bufWriter "" = (buf, true) → m.to_string = some buf) ∧
    (∀ buf, m.render_fmt bufWriter "" = (buf, false) → m.to_string = none) := by
  constructor <;> intro buf h <;> simp [Markup.to_string, h]

/-- C7 witness: the to_string theorem at one succeeding and one failing
concrete markup. -/
theorem to_string_spec_witness :
    hiMarkup.to_string = some "hi" ∧ failMarkup.to_string = none :=
  ⟨(to_string_spec hiMarkup).1 "hi" rfl, (to_string_spec failMarkup).2 "" rfl⟩

/-- A markup of the canonical generated-code shape: its callback writes
a fixed, input-independent sequence of fragments to whatever writer it
is given. -/
def fragMarkup (frags : List String) : Markup :=
  rt.make_markup fun _ W st => writeAll W st frags

theorem writeAll_bufWriter (fs : List String) (st : String) :
    writeAll bufWriter st fs = (st ++ String.mk (fs.flatMap String.data), true) := by
  induction fs generalizing st with
  | nil =>
    show (st, true) = (st ++ String.mk [], true)
    rw [append_mk, List.append_nil]
  | cons f fs ih =>
    simp only [writeAll, bufWriter, if_true, List.flatMap_cons]
    rw [show (⟨fun st s => (st ++ s, true)⟩ : Writer String) = bufWriter from rfl, ih]
    simp [append_mk, List.append_assoc]

/-- C9: rendering is deterministic and replayable: a markup built from a
fixed fragment sequence delivers exactly that same fragment sequence to
every writer it is rendered into, and `to_string` (two calls of which
are trivially equal) returns their concatenation. -/
theorem markup_replay (frags : List String) (σ1 σ2 : Type) (W1 : Writer σ1)
    (W2 : Writer σ2) (st1 : σ1) (st2 : σ2) :
    (fragMarkup frags).render_fmt W1 st1 = writeAll W1 st1 frags ∧
    (fragMarkup frags).render_fmt W2 st2 = writeAll W2 st2 frags ∧
    (fragMarkup frags).to_string = some (String.mk (frags.flatMap String.data)) ∧
    (fragMarkup frags).to_string = (fragMarkup frags).to_string := by
  refine ⟨rfl, rfl, ?_, rfl⟩
  show (let r := writeAll bufWriter "" frags; if r.2 then some r.1 else none) = _
  rw [writeAll_bufWriter]
  show some ("" ++ String.mk _) = _
  rw [append_mk]
  rfl

/-- The five entity strings the escaper can emit, as character lists. -/
def htmlEntities : List (List Char) :=
  [("&amp;" : String).data, ("&lt;" : String).data, ("&gt;" : String).data,
    ("&quot;" : String).data, ("&#39;" : String).data]

/-- HTML-safety of a character list: none of `<`, `>`, `"`, `'` occurs
raw, and every occurrence of `&` is the start of one of the five escape
entities. -/
def SafeHtml (l : List Char) : Prop :=
  ('<' ∉ l ∧ '>' ∉ l ∧ '"' ∉ l ∧ '\'' ∉ l) ∧
  ∀ i t, l.drop i = '&' :: t → ∃ e ∈ htmlEntities, ∃ r, '&' :: t = e ++ r

theorem safeHtml_nil : SafeHtml [] := by
  refine ⟨by simp, ?_⟩
  intro i t h
  simp at h

theorem safeHtml_block (b rest : List Char) (hs : SafeHtml rest)
    (hmem : '<' ∉ b ∧ '>' ∉ b ∧ '"' ∉ b ∧ '\'' ∉ b)
    (hamp : '&' ∉ b.drop 1)
    (hent : ∀ u, b = '&' :: u → b ∈ htmlEntities) :
    SafeHtml (b ++ rest) := by
  obtain ⟨m1, m2, m3, m4⟩ := hmem
  obtain ⟨⟨r1, r2, r3, r4⟩, hpos⟩ := hs
  constructor
  · refine ⟨?_, ?_, ?_, ?_⟩ <;> simp only [List.mem_append] <;> tauto
  · intro i t hdrop
    by_cases hi : i < b.length
    · rw [List.drop_append_of_le_length (le_of_lt hi), List.drop_eq_getElem_cons hi,
        List.cons_append] at hdrop
      injection hdrop with h1 h2
      have hi0 : i = 0 := by
        by_contra h0
        apply hamp
        have hlen : i - 1 < (List.drop 1 b).length := by
          rw [List.length_drop]
          omega
        have hidx : (List.drop 1 b)[i - 1] = b[i] := by
          rw [← List.getElem_drop']
          · congr 1
            omega
          · omega
        rw [← h1, ← hidx]
        exact List.getElem_mem hlen
      subst hi0
      have hb : b = '&' :: List.drop 1 b := by
        have h3 := List.drop_eq_getElem_cons (l := b) hi
        rw [List.drop_zero] at h3
        conv_lhs => rw [h3]
        rw [h1]
      refine ⟨b, hent _ hb, rest, ?_⟩
      conv_rhs => rw [hb]
      rw [← h2]
      simp
    · push_neg at hi
      rw [show i = b.length + (i - b.length) from by omega, List.drop_append] at hdrop
      exact hpos _ t hdrop

theorem safeHtml_translate (c : Char) (rest : List Char) (hs : SafeHtml rest) :
    SafeHtml ((rt.escaperTranslate c).data ++ rest) := by
  by_cases h1 : c = '&'
  · subst h1
    exact safeHtml_block _ _ hs (by decide) (by decide) (fun _ _ => by decide)
  by_cases h2 : c = '<'
  · subst h2
    exact safeHtml_block _ _ hs (by decide) (by decide) (fun _ _ => by decide)
  by_cases h3 : c = '>'
  · subst h3
    exact safeHtml_block _ _ hs (by decide) (by decide) (fun _ _ => by decide)
  by_cases h4 : c = '"'
  · subst h4
    exact safeHtml_block _ _ hs (by decide) (by decide) (fun _ _ => by decide)
  by_cases h5 : c = '\''
  · subst h5
    exact safeHtml_block _ _ hs (by decide) (by decide) (fun _ _ => by decide)
  rw [escaperTranslate_default c h1 h2 h3 h4 h5]
  show SafeHtml ([c] ++ rest)
  refine safeHtml_block [c] rest hs ?_ (by simp) ?_
  · simp only [List.mem_singleton]
    exact ⟨fun h => h2 h.symm, fun h => h3 h.symm, fun h => h4 h.symm, fun h => h5 h.symm⟩
  · intro u hu
    injection hu with hc _
    exact absurd hc h1

theorem safeHtml_escChars (cs : List Char) : SafeHtml (escChars cs) := by
  induction cs with
  | nil => exact safeHtml_nil
  | cons c cs ih =>
    simp only [escChars, List.flatMap_cons]
    exact safeHtml_translate c _ ih

/-- C2: `escape(s)` contains no raw `<`, `>`, `"` or `'`, and every `&`
in it starts one of the five escape entities the escaper emits, so
inserting it verbatim into HTML cannot open a tag or attribute or break
out of a quoted attribute value. -/
theorem escape_html_safe (s : String) :
    ('<' ∉ (escape s).data ∧ '>' ∉ (escape s).data ∧ '"' ∉ (escape s).data ∧
      '\'' ∉ (escape s).data) ∧
    ∀ i t, (escape s).data.drop i = '&' :: t →
      ∃ e ∈ htmlEntities, ∃ r, '&' :: t = e ++ r := by
  rw [escape_data]
  exact safeHtml_escChars s.data

/-- C2 witness: the safety theorem at the concrete input `"<"`, whose
escape is `"&lt;"`: no raw `<`, and the `&` at position 0 starts an
entity. -/
theorem escape_html_safe_witness :
    '<' ∉ (escape "<").data ∧
      ∃ e ∈ htmlEntities, ∃ r, '&' :: ['l', 't', ';'] = e ++ r :=
  ⟨(escape_html_safe "<").1.1, (escape_html_safe "<").2 0 ['l', 't', ';'] (by decide)⟩

/-- C10: escaping is not idempotent: escaping `"&"` twice double-encodes
the ampersand. -/
theorem escape_not_idempotent :
    escape (escape "&") = "&amp;amp;" ∧ escape "&" = "&amp;" ∧
    escape (escape "&") ≠ escape "&" := by
  refine ⟨by rfl, by rfl, by decide⟩

end Maud
